import Mathlib

/-!
Verification of the s64da netdata FPGA collector plugin (fpga.chart.py).

The Python source is shallowly embedded below: dictionaries become
association lists with first-match lookup and replace-or-append update,
numeric values become rationals, fallible operations return `Except`,
and the two regular-expression matchers used by the vendor probes are
translated as explicit character-list scanners with the same greedy
semantics.  The block at source lines 283-291 mixes tabs and spaces;
with the standard tab stop of eight columns the total-accumulation
statements sit inside the `if name in self.keys` branch, and the
embedding follows that structure.
-/

namespace FpgaChart

/-- A database cell value: either a numeric value (modelled as a rational)
or a string (used for device identifiers). -/
inductive Val where
  | num (q : ℚ)
  | str (s : String)
deriving DecidableEq

/-- First-match lookup in an association list (Python dict read). -/
def aGet? {κ : Type} [DecidableEq κ] {α : Type} : List (κ × α) → κ → Option α
  | [], _ => none
  | (k, v) :: rest, key => if k = key then some v else aGet? rest key

/-- Replace-in-place or append update of an association list
(Python dict write, preserving insertion order). -/
def aSet {κ : Type} [DecidableEq κ] {α : Type} : List (κ × α) → κ → α → List (κ × α)
  | [], key, val => [(key, val)]
  | (k, v) :: rest, key, val =>
    if k = key then (k, val) :: rest else (k, v) :: aSet rest key val

/-- The snapshot dictionary mapping series keys to values. -/
abbrev Data := List (String × Val)

/-- Python substring test `sub in s`. -/
def strContains (s sub : String) : Bool :=
  s.data.tails.any (fun t => sub.data.isPrefixOf t)

/-- Python `\d` character class on the inputs at hand (ASCII digits). -/
def isPyDigit (c : Char) : Bool := c.isDigit

/-- Python `\s` character class. -/
def isPySpace (c : Char) : Bool :=
  c = ' ' || c = '\t' || c = '\n' || c = '\x0b' || c = '\x0c' || c = '\r'

/-- The construction-time configuration consumed by `Service.__init__`:
the device count obtained at startup and the two option flags. -/
structure Config where
  fpga_count : ℕ
  check_temp_power : Bool
  pu_ddr_stats_enable : Bool
deriving DecidableEq

/-- The `lines` field names of each entry of the `DEFINITIONS` table. -/
def defLines (component : String) : List String :=
  match component with
  | "bytes" => ["host_to_fpga_byte_count", "fpga_to_host_byte_count"]
  | "jobs" => ["compression_job_count", "decompression_job_count",
               "decompression_and_filter_job_count", "filter_job_count"]
  | "max" => ["max_outstanding_compression_jobs",
              "max_outstanding_decompression_and_filter_jobs",
              "max_outstanding_filter_jobs"]
  | "pu_stats" => ["current_pu_utilised_comp_percent", "current_pu_utilised_decomp_percent",
                   "avg_pu_utilised_comp_percent", "avg_pu_utilised_decomp_percent",
                   "max_pu_utilised_comp", "max_pu_utilised_decomp"]
  | "ddr_stats" => ["avg_memory_write_transactions_percent", "avg_memory_read_transactions_percent",
                    "avg_memory_write_denied_percent", "avg_memory_read_denied_percent"]
  | "temps" => ["temperature"]
  | "powers" => ["power"]
  | _ => []

/-- The registration state built at setup: the reporting order and the
list of valid series keys (`self.order` and `self.keys`). -/
structure Registry where
  order : List String
  keys : List String
deriving DecidableEq

/-- `init_fpga_metrics`: append the component name to the reporting order
and register every prefixed field name as a valid series key. -/
def init_fpga_metrics (reg : Registry) (component name : String) : Registry :=
  { order := reg.order ++ [name ++ "-" ++ component],
    keys := reg.keys ++ (defLines component).map (fun k => name ++ "-" ++ k) }

/-- Register a list of metric kinds under one device name, in order. -/
def registerAll (reg : Registry) (metrics : List String) (name : String) : Registry :=
  metrics.foldl (fun r m => init_fpga_metrics r m name) reg

/-- One iteration of the per-device loop of `__init__` (source lines
111-123).  The `metrics` list is threaded through the loop exactly as in
the source, where `self.metrics.extend(...)` runs inside the loop body. -/
def deviceStep (cfg : Config) (acc : List String × Registry) (i : ℕ) : List String × Registry :=
  let name := "fpga-" ++ Nat.repr i
  let metrics := acc.1
  let metrics := if cfg.pu_ddr_stats_enable then metrics ++ ["pu_stats", "ddr_stats"] else metrics
  let metrics := if cfg.check_temp_power then metrics ++ ["temps", "powers"] else metrics
  (metrics, registerAll acc.2 metrics name)

/-- The registration sequence of `__init__` (source lines 90, 107-123). -/
def initRegistry (cfg : Config) : Registry :=
  let baseMetrics := ["bytes", "jobs", "max"]
  let reg0 : Registry := ⟨[], []⟩
  let reg1 := if cfg.fpga_count > 1 then registerAll reg0 baseMetrics "fpga-total" else reg0
  ((List.range cfg.fpga_count).foldl (deviceStep cfg) (baseMetrics, reg1)).2

/-- `self.default_data`: every registered key zero-initialised
(source lines 126-127). -/
def defaultData (reg : Registry) : Data :=
  reg.keys.foldl (fun d k => aSet d k (Val.num 0)) []

/-- The device identity mapper state (`self.fpga_mapping`, `self.next_fpga`). -/
structure MapperState where
  fpga_mapping : List (Val × String)
  next_fpga : ℕ
deriving DecidableEq

/-- Resolution of a raw device identifier (source lines 275-279): a
previously unseen identifier is assigned the next sequential local name
and remembered; a repeat returns the stored name. -/
def resolve (st : MapperState) (id : Val) : String × MapperState :=
  match aGet? st.fpga_mapping id with
  | some n => (n, st)
  | none =>
    let name := "fpga-" ++ Nat.repr st.next_fpga
    (name, ⟨st.fpga_mapping ++ [(id, name)], st.next_fpga + 1⟩)

/-- The long-lived collector state threaded across collection cycles:
the cached connection handle, a supply of fresh handles, the mapper
state and the stored default snapshot. -/
structure ServiceState where
  conn : Option ℕ
  connSupply : ℕ
  mapper : MapperState
  default_data : Data
deriving DecidableEq

/-- `_connect` (source lines 151-156): reuse the cached handle when
present, otherwise establish a fresh connection. -/
def connect (s : ServiceState) : ℕ × ServiceState :=
  match s.conn with
  | some c => (c, s)
  | none => (s.connSupply, { s with conn := some s.connSupply, connSupply := s.connSupply + 1 })

/-- One result set of the stats query: the column names of
`cursor.description` and the fetched rows. -/
structure QueryResult where
  columns : List String
  rows : List (List Val)
deriving DecidableEq

/-- The `columns` dictionary of `get_data` (source lines 266-271):
column name to index, later duplicates overwriting earlier ones. -/
def colMap (columns : List String) : List (String × ℕ) :=
  columns.enum.foldl (fun m p => aSet m p.2 p.1) []

/-- Indexing `row[columns[name]]`; a missing column or an out-of-range
index is a raised exception. -/
def cell (cm : List (String × ℕ)) (row : List Val) (name : String) : Except String Val :=
  match aGet? cm name with
  | none => .error "KeyError-columns"
  | some i =>
    match row.get? i with
    | some v => .ok v
    | none => .error "IndexError"

/-- The row's device identifier (source line 274): the `fpga_id` column
when present, the string `"0"` otherwise. -/
def rowIdOf (cm : List (String × ℕ)) (row : List Val) : Except String Val :=
  match aGet? cm "fpga_id" with
  | none => .ok (.str "0")
  | some i =>
    match row.get? i with
    | some v => .ok v
    | none => .error "IndexError"

/-- Python `+` on two cell values; adding a non-number raises. -/
def vAdd : Val → Val → Except String Val
  | .num a, .num b => .ok (.num (a + b))
  | _, _ => .error "TypeError"

/-- Python division of a cell value by the device count. -/
def vDivNat : Val → ℕ → Except String Val
  | .num a, n => .ok (.num (a / (n : ℚ)))
  | _, _ => .error "TypeError"

/-- The accumulation `data[tot_name] += v` (optionally dividing `v` by
the device count first): reading a missing key raises `KeyError`. -/
def accumTot (data : Data) (tot : String) (v : Val) (divBy : Option ℕ) : Except String Data :=
  match aGet? data tot with
  | none => .error "KeyError"
  | some cur =>
    match divBy with
    | some n =>
      match vDivNat v n with
      | .error e => .error e
      | .ok x =>
        match vAdd cur x with
        | .error e => .error e
        | .ok s => .ok (aSet data tot s)
    | none =>
      match vAdd cur v with
      | .error e => .error e
      | .ok s => .ok (aSet data tot s)

/-- The body of the per-column loop of `get_data` (source lines 281-291,
read with a tab stop of eight columns): known keys receive the cell
value, and with more than one device the corresponding `fpga-total`
key additionally accumulates the value, averaged for percent-named
columns. -/
def processColumn (cfg : Config) (keys : List String) (cm : List (String × ℕ))
    (row : List Val) (fpga_key : String) (data : Data) (colName : String) :
    Except String Data :=
  let name := fpga_key ++ "-" ++ colName
  if name ∈ keys then
    match cell cm row colName with
    | .error e => .error e
    | .ok v =>
      let data1 := aSet data name v
      if cfg.fpga_count > 1 then
        let tot_name := "fpga-total-" ++ colName
        if strContains name "percent" then
          accumTot data1 tot_name v (some cfg.fpga_count)
        else
          accumTot data1 tot_name v none
      else
        .ok data1
  else
    .ok data

/-- Fold of `processColumn` over the column list of one row. -/
def processColumns (cfg : Config) (keys : List String) (cm : List (String × ℕ))
    (row : List Val) (fpga_key : String) : List String → Data → Except String Data
  | [], data => .ok data
  | colName :: rest, data =>
    match processColumn cfg keys cm row fpga_key data colName with
    | .ok d => processColumns cfg keys cm row fpga_key rest d
    | .error e => .error e

/-- Processing of one result row (source lines 273-291): extract the
device identifier, resolve it to a local name, then run the column loop. -/
def processRow (cfg : Config) (keys : List String) (columns : List String)
    (cm : List (String × ℕ)) (row : List Val) (mst : MapperState) (data : Data) :
    Except String (MapperState × Data) :=
  match rowIdOf cm row with
  | .error e => .error e
  | .ok fpga_id =>
    let r := resolve mst fpga_id
    match processColumns cfg keys cm row r.1 columns data with
    | .ok d => .ok (r.2, d)
    | .error e => .error e

/-- Fold of `processRow` over all fetched rows. -/
def processRows (cfg : Config) (keys : List String) (columns : List String)
    (cm : List (String × ℕ)) : List (List Val) → MapperState → Data →
    Except String (MapperState × Data)
  | [], mst, data => .ok (mst, data)
  | row :: rest, mst, data =>
    match processRow cfg keys columns cm row mst data with
    | .ok r => processRows cfg keys columns cm rest r.1 r.2
    | .error e => .error e

/-- `set_fpga_os_status` (source lines 244-249): copy the latest
sampling-loop readings into the snapshot for every device index. -/
def set_fpga_os_status (cfg : Config) (temp power : List Val) (data : Data) : Data :=
  (List.range cfg.fpga_count).foldl (fun d idx =>
    let d1 := aSet d ("fpga-" ++ Nat.repr idx ++ "-temperature") (temp.getD idx (.num 0))
    aSet d1 ("fpga-" ++ Nat.repr idx ++ "-power") (power.getD idx (.num 0))) data

/-- `get_data` (source lines 252-297): acquire the connection, start
from a copy of the default snapshot, optionally merge temperature and
power readings, process the query result, and on any exception reset
the cached connection and re-raise.  The database's response is the
`query` parameter.  The `try` body is factored out as `get_data_body`. -/
def get_data_body (cfg : Config) (keys : List String) (temp power : List Val)
    (query : Except String QueryResult) (s1 : ServiceState) :
    Except String (MapperState × Data) :=
  match query with
  | .error e => Except.error e
  | .ok q =>
    let data := s1.default_data
    let data1 := if cfg.check_temp_power then set_fpga_os_status cfg temp power data else data
    processRows cfg keys q.columns (colMap q.columns) q.rows s1.mapper data1

def get_data (cfg : Config) (keys : List String) (temp power : List Val)
    (query : Except String QueryResult) (s : ServiceState) :
    Except String Data × ServiceState :=
  let s1 := (connect s).2
  match get_data_body cfg keys temp power query s1 with
  | .ok r => (.ok r.2, { s1 with mapper := r.1 })
  | .error e => (.error e, { s1 with conn := none })

/-- Iterated collection cycles; each list entry supplies that cycle's
temperature readings, power readings and database response. -/
def runCycles (cfg : Config) (keys : List String)
    (inputs : List (List Val × List Val × Except String QueryResult))
    (s : ServiceState) : ServiceState :=
  inputs.foldl (fun st inp => (get_data cfg keys inp.1 inp.2.1 inp.2.2 st).2) s

/-- The sleep duration computed by one iteration of the `time_lag`
wrapper (source lines 215-229), as a function of the configured
interval and the iteration's elapsed wall-clock time. -/
def sleep_duration (interval elapsed : ℚ) : ℚ :=
  let loop_time := interval - elapsed
  if loop_time ≥ 0 then loop_time else interval + loop_time

/-- The value a vendor-probe parse returns to its caller: the integer
zero on command failure, a captured string on a match, or Python's
implicit `None` when the scan falls off the end of the output. -/
inductive ProbeResult where
  | sentinel
  | value (s : String)
  | noResult
deriving DecidableEq

/-- The line scan of `_parse_intel_fpgainfo`: return the capture of the
first matching line, or no result. -/
def scanIntel (matcher : String → Option String) : List String → ProbeResult
  | [] => .noResult
  | l :: ls =>
    match matcher l with
    | some g => .value g
    | none => scanIntel matcher ls

/-- `_parse_intel_fpgainfo` (source lines 159-169): a failed command
yields the zero sentinel; otherwise the first matching line's capture
group is returned, and falling off the end returns `None`. -/
def parse_intel_fpgainfo (cmdOutput : Option (List String))
    (matcher : String → Option String) : ProbeResult :=
  match cmdOutput with
  | none => .sentinel
  | some lines => scanIntel matcher lines

/-- Match the tail of the Intel temperature pattern
`FPGA Core TEMP \s+: (\d+)` at the start of a character list,
returning capture group 1. -/
def intelTempTail (cs : List Char) : Option String :=
  match "FPGA Core TEMP ".data.isPrefixOf cs with
  | false => none
  | true =>
    let rest := cs.drop "FPGA Core TEMP ".data.length
    let ws := rest.takeWhile isPySpace
    if ws.isEmpty then none
    else
      match rest.drop ws.length with
      | ':' :: ' ' :: r =>
        let ds := r.takeWhile isPyDigit
        if ds.isEmpty then none else some (String.mk ds)
      | _ => none

/-- The greedy `^.*` prefix of the Intel temperature pattern: the
rightmost start position whose tail matches wins. -/
def scanGreedyIntel : List Char → Option String
  | [] => intelTempTail []
  | c :: rest =>
    match scanGreedyIntel rest with
    | some g => some g
    | none => intelTempTail (c :: rest)

/-- `re.match` with the pattern `^.*FPGA Core TEMP \s+: (\d+)` of
`_get_intel_fpga_temp`, returning capture group 1. -/
def intelTempMatch (line : String) : Option String := scanGreedyIntel line.data

/-- `re.match` with the value pattern `^(\d+)\s+` of
`_parse_xilinx_fpgainfo`, returning group 0: the leading digit run and
the following whitespace run, which is all the pattern consumes. -/
def valueMatch (line : String) : Option String :=
  let ds := line.data.takeWhile isPyDigit
  if ds.isEmpty then none
  else
    let rest := line.data.drop ds.length
    let ws := rest.takeWhile isPySpace
    if ws.isEmpty then none else some (String.mk (ds ++ ws))

/-- `re.match` with a literal heading pattern such as `FPGA TEMP`:
the line must start with the pattern text. -/
def headingMatch (pat line : String) : Bool :=
  pat.data.isPrefixOf line.data

/-- The two-line scan of `_parse_xilinx_fpgainfo` (source lines
179-188), carrying the `fpga_heading_found` flag. -/
def scanXilinx (pat : String) : List String → Bool → ProbeResult
  | [], _ => .noResult
  | l :: ls, found =>
    if headingMatch pat l then scanXilinx pat ls true
    else
      match valueMatch l with
      | some v => if found then .value v else scanXilinx pat ls found
      | none => scanXilinx pat ls found

/-- `_parse_xilinx_fpgainfo` (source lines 172-188): a failed command
yields the zero sentinel; otherwise the first value line after a
heading line is returned as matched, and falling off the end returns
`None`. -/
def parse_xilinx_fpgainfo (cmdOutput : Option (List String)) (pat : String) : ProbeResult :=
  match cmdOutput with
  | none => .sentinel
  | some lines => scanXilinx pat lines false

/-- `_get_xilinx_fpga_temp` (source lines 197-200) applied to the
command's output. -/
def get_xilinx_fpga_temp (cmdOutput : Option (List String)) : ProbeResult :=
  parse_xilinx_fpgainfo cmdOutput "FPGA TEMP"

/-- The columns used by the metric kinds registered under `fpga-total`
when more than one device is configured (`bytes`, `jobs`, `max`). -/
def totalEligibleCols : List String :=
  (["bytes", "jobs", "max"].map defLines).flatten

/-- Decidable equality of fallible results, for evaluating concrete
cycles. -/
def exceptDecEq {ε α : Type} [DecidableEq ε] [DecidableEq α] : DecidableEq (Except ε α)
  | .error e1, .error e2 =>
    if h : e1 = e2 then .isTrue (by rw [h]) else .isFalse (fun hc => h (Except.error.inj hc))
  | .error _, .ok _ => .isFalse (fun hc => Except.noConfusion hc)
  | .ok _, .error _ => .isFalse (fun hc => Except.noConfusion hc)
  | .ok a1, .ok a2 =>
    if h : a1 = a2 then .isTrue (by rw [h]) else .isFalse (fun hc => h (Except.ok.inj hc))

instance {ε α : Type} [DecidableEq ε] [DecidableEq α] : DecidableEq (Except ε α) := exceptDecEq

/-- Resolution of a whole sequence of raw identifiers starting from a
given mapper state, collecting the returned names. -/
def runResolveFrom (start : List String × MapperState) (ids : List Val) :
    List String × MapperState :=
  ids.foldl (fun acc id =>
    let r := resolve acc.2 id
    (acc.1 ++ [r.1], r.2)) start

/-- Resolution of a sequence of raw identifiers from the initial
(empty) mapper state of a fresh collector. -/
def runResolve (ids : List Val) : List String × MapperState :=
  runResolveFrom ([], ⟨[], 0⟩) ids

/-- One step of first-seen deduplication. -/
def seenStep (acc : List Val) (x : Val) : List Val :=
  if x ∈ acc then acc else acc ++ [x]

/-- The distinct identifiers of a sequence in first-seen order. -/
def seenList (ids : List Val) : List Val := ids.foldl seenStep []

/-- The mapping a run builds: the k-th distinct identifier paired with
the local name `fpga-k`. -/
def mappingOf : List Val → ℕ → List (Val × String)
  | [], _ => []
  | x :: xs, k => (x, "fpga-" ++ Nat.repr k) :: mappingOf xs (k + 1)

/-- Index of the first occurrence of an element. -/
def idxOf : List Val → Val → ℕ
  | [], _ => 0
  | y :: ys, x => if y = x then 0 else idxOf ys x + 1

/-! Helper lemmas about the probe scanners. -/

/-- A scan over lines none of which matches falls off the end. -/
theorem scanIntel_all_none (m : String → Option String) :
    ∀ ls : List String, (∀ x ∈ ls, m x = none) → scanIntel m ls = .noResult
  | [], _ => rfl
  | l :: ls, h => by
    have h1 : m l = none := h l (List.mem_cons_self _ _)
    have h2 := scanIntel_all_none m ls (fun x hx => h x (List.mem_cons_of_mem _ hx))
    simp [scanIntel, h1, h2]

/-- The scan returns the capture of the first matching line. -/
theorem scanIntel_first_match (m : String → Option String) (l g : String) (post : List String)
    (hl : m l = some g) :
    ∀ pre : List String, (∀ x ∈ pre, m x = none) →
      scanIntel m (pre ++ l :: post) = .value g
  | [], _ => by simp [scanIntel, hl]
  | p :: pre, h => by
    have h1 : m p = none := h p (List.mem_cons_self _ _)
    have h2 := scanIntel_first_match m l g post hl pre (fun x hx => h x (List.mem_cons_of_mem _ hx))
    simp [scanIntel, h1, h2]

/-- A Xilinx scan over lines none of which is a value line falls off
the end whatever the heading flag says. -/
theorem scanXilinx_no_value (pat : String) :
    ∀ (ls : List String) (b : Bool), (∀ x ∈ ls, valueMatch x = none) →
      scanXilinx pat ls b = .noResult
  | [], _, _ => rfl
  | l :: ls, b, h => by
    have h1 : valueMatch l = none := h l (List.mem_cons_self _ _)
    have ih1 := scanXilinx_no_value pat ls true (fun x hx => h x (List.mem_cons_of_mem _ hx))
    have ih2 := scanXilinx_no_value pat ls b (fun x hx => h x (List.mem_cons_of_mem _ hx))
    by_cases hh : headingMatch pat l
    · simp [scanXilinx, hh, ih1]
    · simp [scanXilinx, hh, h1, ih2]

/-- Characters counted as whitespace are not digits. -/
theorem space_not_digit (c : Char) (h : isPySpace c = true) : isPyDigit c = false := by
  simp only [isPySpace, Bool.or_eq_true, decide_eq_true_eq] at h
  rcases h with ((((h | h) | h) | h) | h) | h <;> subst h <;> decide

/-- `takeWhile` walks over a block that satisfies the predicate. -/
theorem takeWhile_append_all (p : Char → Bool) :
    ∀ (xs ys : List Char), (∀ x ∈ xs, p x = true) →
      (xs ++ ys).takeWhile p = xs ++ ys.takeWhile p
  | [], _, _ => rfl
  | x :: xs, ys, h => by
    have h1 : p x = true := h x (List.mem_cons_self _ _)
    have h2 := takeWhile_append_all p xs ys (fun a ha => h a (List.mem_cons_of_mem _ ha))
    simp [List.takeWhile_cons, h1, h2]

/-- `takeWhile` stops at a head that falsifies the predicate. -/
theorem takeWhile_stop (p : Char → Bool) (ys : List Char)
    (hy : ys.head?.all (fun c => !p c) = true) : ys.takeWhile p = [] := by
  cases ys with
  | nil => rfl
  | cons c cs =>
    have : p c = false := by
      simp only [List.head?, Option.all_some, Bool.not_eq_true'] at hy
      exact hy
    simp [List.takeWhile_cons, this]

/-- Decomposition of the Xilinx value-line match: group 0 is exactly
the digit run and the following whitespace run. -/
theorem valueMatch_split (ds ws rest : List Char)
    (hds : ds ≠ []) (hdall : ∀ c ∈ ds, isPyDigit c = true)
    (hws : ws ≠ []) (hwall : ∀ c ∈ ws, isPySpace c = true)
    (hrest : rest.head?.all (fun c => !isPySpace c) = true) :
    valueMatch (String.mk (ds ++ ws ++ rest)) = some (String.mk (ds ++ ws)) := by
  have key1 : (String.mk (ds ++ ws ++ rest)).data.takeWhile isPyDigit = ds := by
    show (ds ++ ws ++ rest).takeWhile isPyDigit = ds
    rw [List.append_assoc, takeWhile_append_all isPyDigit ds (ws ++ rest) hdall]
    have hstop : (ws ++ rest).takeWhile isPyDigit = [] := by
      apply takeWhile_stop
      cases ws with
      | nil => exact absurd rfl hws
      | cons w ws2 =>
        have hw : isPySpace w = true := hwall w (List.mem_cons_self _ _)
        simp [space_not_digit w hw]
    rw [hstop, List.append_nil]
  have key2 : (String.mk (ds ++ ws ++ rest)).data.drop ds.length = ws ++ rest := by
    show (ds ++ ws ++ rest).drop ds.length = ws ++ rest
    rw [List.append_assoc]
    exact List.drop_left ds (ws ++ rest)
  have htk2 : (ws ++ rest).takeWhile isPySpace = ws := by
    rw [takeWhile_append_all isPySpace ws rest hwall, takeWhile_stop isPySpace rest hrest,
      List.append_nil]
  have hdsE : ds.isEmpty = false := by
    cases ds with
    | nil => exact absurd rfl hds
    | cons a l => rfl
  have hwsE : ws.isEmpty = false := by
    cases ws with
    | nil => exact absurd rfl hws
    | cons a l => rfl
  simp only [valueMatch, key1]
  rw [if_neg (by rw [hdsE]; exact Bool.false_ne_true)]
  simp only [key2, htk2]
  rw [if_neg (by rw [hwsE]; exact Bool.false_ne_true)]

/-- One scan step over a heading line sets the heading flag. -/
theorem scanXilinx_cons_heading (pat l : String) (ls : List String) (b : Bool)
    (h : headingMatch pat l = true) :
    scanXilinx pat (l :: ls) b = scanXilinx pat ls true := by
  simp [scanXilinx, h]

/-- One scan step over a value line with the heading flag set returns
the match. -/
theorem scanXilinx_cons_value (pat l v : String) (ls : List String)
    (hh : headingMatch pat l = false) (hv : valueMatch l = some v) :
    scanXilinx pat (l :: ls) true = .value v := by
  simp [scanXilinx, hh, hv]

/-- A line starting with a digit cannot match the heading pattern. -/
theorem headingMatch_digit_false (line : String) (d : Char) (rest : List Char)
    (hd : isPyDigit d = true) (hline : line.data = d :: rest) :
    headingMatch "FPGA TEMP" line = false := by
  have hF : "FPGA TEMP".data = 'F' :: "PGA TEMP".data := rfl
  have hdF : ('F' == d) = false := by
    have : d ≠ 'F' := by
      intro h
      subst h
      exact absurd hd (by decide)
    simpa [beq_eq_false_iff_ne] using fun h => this h.symm
  simp [headingMatch, hline, hF, List.isPrefixOf, hdF]

/-! Claim theorems for the probe protocols, the sampling loop and the
registration sequence. -/

/-- C5: an iteration with elapsed time below the configured interval
sleeps exactly `interval − elapsed`; an iteration with elapsed time
between one and two intervals (exclusive below, inclusive above) sleeps
exactly `2×interval − elapsed`, which is non-negative. -/
theorem C5_sleep_timing (i e : ℚ) :
    (e < i → sleep_duration i e = i - e) ∧
    (i < e → e ≤ 2 * i → sleep_duration i e = 2 * i - e ∧ 0 ≤ sleep_duration i e) := by
  constructor
  · intro h
    simp only [sleep_duration]
    rw [if_pos (by linarith)]
  · intro h1 h2
    have hneg : ¬ (i - e ≥ 0) := by linarith
    simp only [sleep_duration]
    rw [if_neg hneg]
    constructor
    · ring
    · linarith

/-- Witness for C5 at interval 10 with elapsed times 4 and 15. -/
theorem C5_sleep_timing_witness :
    sleep_duration 10 4 = 6 ∧ sleep_duration 10 15 = 5 ∧ 0 ≤ sleep_duration 10 15 := by
  refine ⟨?_, ?_, ((C5_sleep_timing 10 15).2 (by norm_num) (by norm_num)).2⟩
  · rw [(C5_sleep_timing 10 4).1 (by norm_num)]
    norm_num
  · rw [((C5_sleep_timing 10 15).2 (by norm_num) (by norm_num)).1]
    norm_num

/-- C6 counterexample: with interval 10 and elapsed 25 the overrun
exceeds a full interval, and the loop computes the sleep duration −5,
not one full interval from completion. -/
theorem C6_counterexample :
    sleep_duration 10 25 = -5 ∧ sleep_duration 10 25 ≠ 10 := by
  constructor
  · norm_num [sleep_duration]
  · norm_num [sleep_duration]

/-- C6 amended: when the overrun exceeds a full interval the loop
computes the sleep duration `2×interval − elapsed`, which is negative
(a value Python's sleep rejects) and in particular not one full
interval. -/
theorem C6_amended_negative_sleep (i e : ℚ) (hi : 0 < i) (he : 2 * i < e) :
    sleep_duration i e = 2 * i - e ∧ sleep_duration i e < 0 ∧ sleep_duration i e ≠ i := by
  have hneg : ¬ (i - e ≥ 0) := by linarith
  simp only [sleep_duration]
  rw [if_neg hneg]
  refine ⟨by ring, by linarith, fun h => by
    have : e = i := by linarith
    linarith⟩

/-- Witness for the amended C6 at interval 10 with elapsed 25. -/
theorem C6_amended_negative_sleep_witness :
    sleep_duration 10 25 = 2 * 10 - 25 ∧ sleep_duration 10 25 < 0 ∧ sleep_duration 10 25 ≠ 10 :=
  C6_amended_negative_sleep 10 25 (by norm_num) (by norm_num)

/-- C2: evaluation at the failing input, two devices with the pu/ddr
option enabled: the option kinds are registered twice for device 1
(`fpga-1-pu_stats` and `fpga-1-ddr_stats` appear twice in the reporting
order) while device 0's appear once, because the metric-kind list is
extended inside the per-device loop. -/
theorem C2_duplicate_registration :
    (initRegistry ⟨2, false, true⟩).order.count "fpga-1-pu_stats" = 2 ∧
    (initRegistry ⟨2, false, true⟩).order.count "fpga-0-pu_stats" = 1 ∧
    (initRegistry ⟨2, false, true⟩).order.count "fpga-1-ddr_stats" = 2 := by
  decide

/-- C7 counterexample: a successful command none of whose output lines
matches makes `_parse_intel_fpgainfo` fall off its scan and return
Python's implicit `None`, which is not the numeric zero sentinel. -/
theorem C7_counterexample :
    parse_intel_fpgainfo (some ["hello"]) intelTempMatch = .noResult ∧
    ProbeResult.noResult ≠ ProbeResult.sentinel := by
  constructor
  · decide
  · decide

/-- C7 amended: a failed command yields the zero sentinel; a successful
command with no matching line yields Python's implicit `None` (not the
sentinel); a successful command with a matching line yields the captured
group of the first matching line, and no exception propagates. -/
theorem C7_amended_protocol_a (m : String → Option String) (lines pre post : List String)
    (l g : String)
    (hnone : ∀ x ∈ lines, m x = none)
    (hpre : ∀ x ∈ pre, m x = none) (hl : m l = some g) :
    parse_intel_fpgainfo none m = .sentinel ∧
    parse_intel_fpgainfo (some lines) m = .noResult ∧
    parse_intel_fpgainfo (some (pre ++ l :: post)) m = .value g := by
  refine ⟨rfl, ?_, ?_⟩
  · exact scanIntel_all_none m lines hnone
  · exact scanIntel_first_match m l g post hl pre hpre

/-- Witness for the amended C7 with the concrete Intel temperature
pattern: command failure, a non-matching line, and the line
`FPGA Core TEMP      : 42` capturing `42`. -/
theorem C7_amended_protocol_a_witness :
    parse_intel_fpgainfo none intelTempMatch = .sentinel ∧
    parse_intel_fpgainfo (some ["junk"]) intelTempMatch = .noResult ∧
    parse_intel_fpgainfo (some ["junk", "FPGA Core TEMP      : 42"]) intelTempMatch =
      .value "42" := by
  have h := C7_amended_protocol_a intelTempMatch ["junk"] ["junk"] []
    "FPGA Core TEMP      : 42" "42" (by decide) (by decide) (by decide)
  exact ⟨h.1, h.2.1, h.2.2⟩

/-- C8 counterexample: the heading `FPGA TEMP` followed by the value
line `37  other text` yields only the matched portion `37  ` (the digit
run and following whitespace), not the whole line. -/
theorem C8_counterexample :
    get_xilinx_fpga_temp (some ["FPGA TEMP", "37  other text"]) = .value "37  " ∧
    get_xilinx_fpga_temp (some ["FPGA TEMP", "37  other text"]) ≠ .value "37  other text" := by
  constructor
  · decide
  · decide

/-- C8 amended: a heading line followed by a line starting with a digit
run and a whitespace run yields exactly that digit run and whitespace
run (group 0 of the value pattern); a heading followed by no numeric
line yields Python's implicit `None`. -/
theorem C8_amended_protocol_b (ds ws rest : List Char) (tl tl2 : List String)
    (hds : ds ≠ []) (hdall : ∀ c ∈ ds, isPyDigit c = true)
    (hws : ws ≠ []) (hwall : ∀ c ∈ ws, isPySpace c = true)
    (hrest : rest.head?.all (fun c => !isPySpace c) = true)
    (hnoval : ∀ x ∈ tl2, valueMatch x = none) :
    get_xilinx_fpga_temp (some ("FPGA TEMP" :: String.mk (ds ++ ws ++ rest) :: tl)) =
      .value (String.mk (ds ++ ws)) ∧
    get_xilinx_fpga_temp (some ("FPGA TEMP" :: tl2)) = .noResult := by
  constructor
  · obtain ⟨d, ds2, rfl⟩ : ∃ d ds2, ds = d :: ds2 := by
      cases ds with
      | nil => exact absurd rfl hds
      | cons d ds2 => exact ⟨d, ds2, rfl⟩
    have hd : isPyDigit d = true := hdall d (List.mem_cons_self _ _)
    have hhead : headingMatch "FPGA TEMP" (String.mk ((d :: ds2) ++ ws ++ rest)) = false :=
      headingMatch_digit_false _ d (ds2 ++ ws ++ rest) hd (by simp)
    have hval := valueMatch_split (d :: ds2) ws rest hds hdall hws hwall hrest
    show scanXilinx "FPGA TEMP" ("FPGA TEMP" :: String.mk ((d :: ds2) ++ ws ++ rest) :: tl) false
      = .value (String.mk ((d :: ds2) ++ ws))
    rw [scanXilinx_cons_heading "FPGA TEMP" "FPGA TEMP" _ false (by decide)]
    exact scanXilinx_cons_value "FPGA TEMP" _ _ tl hhead hval
  · show scanXilinx "FPGA TEMP" ("FPGA TEMP" :: tl2) false = .noResult
    rw [scanXilinx_cons_heading "FPGA TEMP" "FPGA TEMP" _ false (by decide)]
    exact scanXilinx_no_value "FPGA TEMP" tl2 true hnoval

/-- Witness for the amended C8 at the spec's literal inputs. -/
theorem C8_amended_protocol_b_witness :
    get_xilinx_fpga_temp (some ["FPGA TEMP", "37  other text"]) = .value "37  " ∧
    get_xilinx_fpga_temp (some ["FPGA TEMP", "junk"]) = .noResult := by
  have h := C8_amended_protocol_b ['3', '7'] [' ', ' '] "other text".data [] ["junk"]
    (by decide) (by decide) (by decide) (by decide) (by decide) (by decide)
  have e1 : String.mk (['3', '7'] ++ [' ', ' '] ++ "other text".data) = "37  other text" := by
    decide
  have e2 : String.mk (['3', '7'] ++ [' ', ' ']) = "37  " := by decide
  rw [e1, e2] at h
  exact h

/-- C9: any exception during the cycle's database work resets the cached
connection handle and re-raises the error, so the next cycle's
`_connect` establishes a fresh handle different from the old one. -/
theorem C9_conn_reset (cfg : Config) (keys : List String) (temp power : List Val)
    (query : Except String QueryResult) (s : ServiceState) (h : ℕ) (e : String)
    (s2 : ServiceState)
    (hconn : s.conn = some h) (hsup : h < s.connSupply)
    (hrun : get_data cfg keys temp power query s = (.error e, s2)) :
    s2.conn = none ∧ (connect s2).1 ≠ h ∧ (connect s2).2.conn = some (connect s2).1 := by
  have hc : connect s = (h, s) := by
    simp [connect, hconn]
  simp only [get_data, hc] at hrun
  cases hbody : get_data_body cfg keys temp power query s with
  | ok r =>
    rw [hbody] at hrun
    exact absurd (congrArg Prod.fst hrun) (by simp)
  | error e2 =>
    rw [hbody] at hrun
    have hs2 : ({ s with conn := none } : ServiceState) = s2 := congrArg Prod.snd hrun
    subst hs2
    refine ⟨rfl, ?_, ?_⟩
    · simp only [connect]
      omega
    · simp [connect]

/-! Lemmas characterising the device identity mapper. -/

/-- Lookup in the canonical mapping: a member is mapped to `fpga-`
suffixed with the base offset plus its first-occurrence index. -/
theorem aGet?_mappingOf (x : Val) :
    ∀ (l : List Val) (k : ℕ),
      aGet? (mappingOf l k) x =
        if x ∈ l then some ("fpga-" ++ Nat.repr (k + idxOf l x)) else none
  | [], k => by simp [mappingOf, aGet?]
  | y :: ys, k => by
    by_cases h : y = x
    · subst h
      simp [mappingOf, aGet?, idxOf]
    · have ih := aGet?_mappingOf x ys (k + 1)
      have harith : k + 1 + idxOf ys x = k + (idxOf ys x + 1) := by omega
      simp only [mappingOf, aGet?, if_pos rfl, if_neg h, ih, List.mem_cons, idxOf]
      by_cases hm : x ∈ ys
      · rw [if_pos hm, if_pos (Or.inr hm), harith]
      · rw [if_neg hm, if_neg (by rintro (h2 | h2); exact h (h2.symm); exact hm h2)]

/-- Appending a fresh element extends the canonical mapping at the end. -/
theorem mappingOf_append (x : Val) :
    ∀ (l : List Val) (k : ℕ),
      mappingOf (l ++ [x]) k = mappingOf l k ++ [(x, "fpga-" ++ Nat.repr (k + l.length))]
  | [], k => by simp [mappingOf]
  | y :: ys, k => by
    have ih := mappingOf_append x ys (k + 1)
    have harith : k + 1 + ys.length = k + (y :: ys).length := by
      simp only [List.length_cons]
      omega
    show (y, "fpga-" ++ Nat.repr k) :: mappingOf (ys ++ [x]) (k + 1)
        = (y, "fpga-" ++ Nat.repr k) ::
          (mappingOf ys (k + 1) ++ [(x, "fpga-" ++ Nat.repr (k + (y :: ys).length))])
    rw [ih, harith]

/-- First-seen deduplication over an appended element. -/
theorem seenList_snoc (l : List Val) (x : Val) :
    seenList (l ++ [x]) = seenStep (seenList l) x := by
  simp [seenList, List.foldl_append]

/-- The names list of a run grows by one resolved name per identifier. -/
theorem runResolve_snoc (l : List Val) (x : Val) :
    runResolve (l ++ [x]) =
      ((runResolve l).1 ++ [(resolve (runResolve l).2 x).1], (resolve (runResolve l).2 x).2) := by
  simp [runResolve, runResolveFrom, List.foldl_append]

/-- The index of a fresh element appended at the end. -/
theorem idxOf_snoc_self (x : Val) :
    ∀ l : List Val, x ∉ l → idxOf (l ++ [x]) x = l.length
  | [], _ => by simp [idxOf]
  | y :: ys, h => by
    have hy : y ≠ x := fun he => h (he ▸ List.mem_cons_self _ _)
    have hm : x ∉ ys := fun hm => h (List.mem_cons_of_mem _ hm)
    show (if y = x then 0 else idxOf (ys ++ [x]) x + 1) = ys.length + 1
    rw [if_neg hy, idxOf_snoc_self x ys hm]

/-- The index of an element of a prefix is unaffected by a suffix. -/
theorem idxOf_append_of_mem (x : Val) :
    ∀ (l t : List Val), x ∈ l → idxOf (l ++ t) x = idxOf l x
  | [], _, h => absurd h (List.not_mem_nil x)
  | y :: ys, t, h => by
    by_cases hy : y = x
    · simp [idxOf, hy]
    · have hm : x ∈ ys := by
        rcases List.mem_cons.mp h with h2 | h2
        · exact absurd h2.symm hy
        · exact h2
      simp [idxOf, hy, idxOf_append_of_mem x ys t hm]

/-- The state reached by resolving a sequence from the initial state is
the canonical mapping of its first-seen-distinct identifiers. -/
theorem runResolve_state (ids : List Val) :
    (runResolve ids).2 = ⟨mappingOf (seenList ids) 0, (seenList ids).length⟩ := by
  induction ids using List.reverseRecOn with
  | nil => rfl
  | append_singleton l x ih =>
    rw [runResolve_snoc, seenList_snoc]
    by_cases hm : x ∈ seenList l
    · have hres : resolve (runResolve l).2 x = ("fpga-" ++ Nat.repr (idxOf (seenList l) x),
          (runResolve l).2) := by
        rw [ih]
        simp [resolve, aGet?_mappingOf, hm]
      rw [hres, ih]
      simp [seenStep, hm]
    · have hres : resolve (runResolve l).2 x =
          ("fpga-" ++ Nat.repr (seenList l).length,
            ⟨mappingOf (seenList l) 0 ++ [(x, "fpga-" ++ Nat.repr (seenList l).length)],
              (seenList l).length + 1⟩) := by
        rw [ih]
        simp [resolve, aGet?_mappingOf, hm]
      rw [hres]
      simp only [seenStep, if_neg hm]
      rw [mappingOf_append]
      simp

/-- `getD` on an appended singleton at the old length. -/
theorem getD_snoc {α : Type} (d a : α) : ∀ ys : List α, (ys ++ [a]).getD ys.length d = a
  | [] => rfl
  | _ :: ys => getD_snoc d a ys

/-- `getD` within the left part of an append. -/
theorem getD_append_left {α : Type} (d : α) :
    ∀ (ys zs : List α) (j : ℕ), j < ys.length → (ys ++ zs).getD j d = ys.getD j d
  | [], _, _, h => absurd h (Nat.not_lt_zero _)
  | _ :: _, _, 0, _ => rfl
  | _ :: ys, zs, j + 1, h => getD_append_left d ys zs j (Nat.lt_of_succ_lt_succ h)

/-- `take` within the left part of an append. -/
theorem take_append_of_le {α : Type} :
    ∀ (ys zs : List α) (n : ℕ), n ≤ ys.length → (ys ++ zs).take n = ys.take n
  | _, _, 0, _ => rfl
  | [], _, n + 1, h => absurd h (by simp)
  | y :: ys, zs, n + 1, h => by
    simp only [List.cons_append, List.take_succ_cons]
    rw [take_append_of_le ys zs n (Nat.le_of_succ_le_succ h)]

/-- The number of names a run returns equals the number of identifiers. -/
theorem runResolve_length (ids : List Val) : (runResolve ids).1.length = ids.length := by
  induction ids using List.reverseRecOn with
  | nil => rfl
  | append_singleton l x ih =>
    rw [runResolve_snoc]
    simp [ih]

/-- The j-th resolved name is `fpga-` suffixed with the first-occurrence
index of the j-th identifier among the distinct identifiers seen so far. -/
theorem runResolve_names (ids : List Val) :
    ∀ j, j < ids.length →
      (runResolve ids).1.getD j "" =
        "fpga-" ++ Nat.repr (idxOf (seenList (ids.take (j + 1))) (ids.getD j (.str ""))) := by
  induction ids using List.reverseRecOn with
  | nil => intro j hj; exact absurd hj (Nat.not_lt_zero j)
  | append_singleton l x ih =>
    intro j hj
    rw [runResolve_snoc]
    rcases Nat.lt_or_ge j l.length with hlt | hge
    · rw [getD_append_left _ _ _ j (by rw [runResolve_length]; exact hlt),
        getD_append_left _ _ _ j hlt,
        take_append_of_le l [x] (j + 1) hlt, ih j hlt]
    · have hj2 : j = l.length := by
        simp only [List.length_append, List.length_singleton] at hj
        omega
      subst hj2
      rw [show (runResolve l).1 ++ [(resolve (runResolve l).2 x).1]
            = (runResolve l).1 ++ [(resolve (runResolve l).2 x).1] from rfl]
      have hget : ((runResolve l).1 ++ [(resolve (runResolve l).2 x).1]).getD l.length ""
          = (resolve (runResolve l).2 x).1 := by
        rw [show l.length = (runResolve l).1.length from (runResolve_length l).symm]
        exact getD_snoc _ _ _
      have hx : (l ++ [x]).getD l.length (Val.str "") = x := getD_snoc _ _ _
      have htake : (l ++ [x]).take (l.length + 1) = l ++ [x] := by
        rw [show l.length + 1 = (l ++ [x]).length by simp]
        exact List.take_length _
      rw [hget, hx, htake, seenList_snoc]
      by_cases hm : x ∈ seenList l
      · have hres : (resolve (runResolve l).2 x).1 = "fpga-" ++ Nat.repr (idxOf (seenList l) x) := by
          rw [runResolve_state]
          simp [resolve, aGet?_mappingOf, hm]
        rw [hres]
        simp [seenStep, hm]
      · have hres : (resolve (runResolve l).2 x).1 = "fpga-" ++ Nat.repr (seenList l).length := by
          rw [runResolve_state]
          simp [resolve, aGet?_mappingOf, hm]
        rw [hres]
        simp only [seenStep, if_neg hm]
        rw [idxOf_snoc_self x (seenList l) hm]

/-- First-seen deduplication only ever appends. -/
theorem foldl_seenStep_extends (ext : List Val) :
    ∀ acc : List Val, ∃ t, ext.foldl seenStep acc = acc ++ t := by
  induction ext with
  | nil => exact fun acc => ⟨[], by simp⟩
  | cons e ext ih =>
    intro acc
    rcases ih (seenStep acc e) with ⟨t, ht⟩
    simp only [List.foldl_cons, ht]
    by_cases hm : e ∈ acc
    · exact ⟨t, by simp [seenStep, hm]⟩
    · exact ⟨e :: t, by simp [seenStep, hm]⟩

/-- C4: the device identity mapper is idempotent and first-seen
order-preserving.  For any identifier sequence, the j-th returned local
name is `fpga-` followed by the first-occurrence index of the j-th
identifier among the distinct identifiers seen up to that point — so the
k-th distinct identifier is assigned `fpga-(k-1)` at its first encounter
whatever its own value, and every repeat returns the previously assigned
name — and a mapping entry once present is still present, unchanged,
after any further resolutions. -/
theorem C4_mapper_order_and_permanence (ids ext : List Val) (j : ℕ) (x : Val) (nm : String) :
    (j < ids.length →
      (runResolve ids).1.getD j "" =
        "fpga-" ++ Nat.repr (idxOf (seenList (ids.take (j + 1))) (ids.getD j (.str "")))) ∧
    (aGet? (runResolve ids).2.fpga_mapping x = some nm →
      aGet? (runResolve (ids ++ ext)).2.fpga_mapping x = some nm) := by
  constructor
  · exact runResolve_names ids j
  · intro h
    rw [runResolve_state] at h
    simp only [aGet?_mappingOf] at h
    rcases hmem : decide (x ∈ seenList ids) with hd | hd
    · rw [if_neg (of_decide_eq_false hmem)] at h
      exact absurd h (by simp)
    · have hmem2 : x ∈ seenList ids := of_decide_eq_true hmem
      rw [if_pos hmem2] at h
      rw [runResolve_state]
      simp only [aGet?_mappingOf]
      have hseen : seenList (ids ++ ext) = seenList ids ++
          Classical.choose (foldl_seenStep_extends ext (seenList ids)) := by
        have := Classical.choose_spec (foldl_seenStep_extends ext (seenList ids))
        rw [seenList, List.foldl_append]
        exact this
      rw [hseen, if_pos (List.mem_append_left _ hmem2),
        idxOf_append_of_mem x (seenList ids) _ hmem2]
      exact h

/-- Witness for C4 at the spec's literal sequence `b, a, b`: the third
resolution returns `fpga-0` again, and the mapping of `b` made at the
first step survives the rest of the run unchanged. -/
theorem C4_mapper_witness :
    (runResolve [Val.str "b", Val.str "a", Val.str "b"]).1.getD 2 "" = "fpga-0" ∧
    aGet? (runResolve ([Val.str "b"] ++ [Val.str "a", Val.str "b"])).2.fpga_mapping
      (Val.str "b") = some "fpga-0" := by
  constructor
  · have h := (C4_mapper_order_and_permanence [Val.str "b", Val.str "a", Val.str "b"] []
      2 (Val.str "b") "").1 (by decide)
    rw [h]
    decide
  · exact (C4_mapper_order_and_permanence [Val.str "b"] [Val.str "a", Val.str "b"]
      0 (Val.str "b") "fpga-0").2 (by decide)

/-- Witness for C9: a cycle whose query fails, starting from a cached
handle 0 with supply 1. -/
theorem C9_conn_reset_witness :
    (⟨none, 1, ⟨[], 0⟩, []⟩ : ServiceState).conn = none ∧
    (connect ⟨none, 1, ⟨[], 0⟩, []⟩).1 ≠ 0 ∧
    (connect ⟨none, 1, ⟨[], 0⟩, []⟩).2.conn = some (connect ⟨none, 1, ⟨[], 0⟩, []⟩).1 :=
  C9_conn_reset ⟨1, false, false⟩ [] [] [] (.error "db") ⟨some 0, 1, ⟨[], 0⟩, []⟩ 0 "db"
    ⟨none, 1, ⟨[], 0⟩, []⟩ rfl (by decide) rfl

/-! Dictionary lemmas and domain monotonicity of the collection cycle. -/

/-- Writing a key makes it readable. -/
theorem aGet?_aSet_self {κ α : Type} [DecidableEq κ] (k : κ) (v : α) :
    ∀ d : List (κ × α), aGet? (aSet d k v) k = some v
  | [] => by simp [aSet, aGet?]
  | (k2, v2) :: rest => by
    by_cases h : k2 = k
    · subst h
      simp [aSet, aGet?]
    · simp [aSet, aGet?, h, aGet?_aSet_self k v rest]

/-- Writing one key leaves the others unchanged. -/
theorem aGet?_aSet_ne {κ α : Type} [DecidableEq κ] (k k2 : κ) (v : α) (hne : k2 ≠ k) :
    ∀ d : List (κ × α), aGet? (aSet d k2 v) k = aGet? d k
  | [] => by simp [aSet, aGet?, hne]
  | (k3, v3) :: rest => by
    by_cases h : k3 = k2
    · subst h
      simp [aSet, aGet?, hne]
    · simp [aSet, aGet?, h, aGet?_aSet_ne k k2 v hne rest]

/-- A write never removes a key. -/
theorem aGet?_aSet_isSome {κ α : Type} [DecidableEq κ] (k k2 : κ) (v : α) (d : List (κ × α))
    (h : (aGet? d k).isSome = true) : (aGet? (aSet d k2 v) k).isSome = true := by
  by_cases he : k2 = k
  · subst he
    rw [aGet?_aSet_self]
    rfl
  · rw [aGet?_aSet_ne k k2 v he]
    exact h

/-- A successful total accumulation is a single write to the total key. -/
theorem accumTot_ok_eq (data d2 : Data) (tot : String) (v : Val) (divBy : Option ℕ)
    (hrun : accumTot data tot v divBy = .ok d2) : ∃ w, d2 = aSet data tot w := by
  cases hg : aGet? data tot with
  | none => simp [accumTot, hg] at hrun
  | some cur =>
    cases divBy with
    | none =>
      cases ha : vAdd cur v with
      | error e => simp [accumTot, hg, ha] at hrun
      | ok w =>
        simp only [accumTot, hg, ha] at hrun
        exact ⟨w, (Except.ok.inj hrun).symm⟩
    | some n =>
      cases hdv : vDivNat v n with
      | error e => simp [accumTot, hg, hdv] at hrun
      | ok x =>
        cases ha : vAdd cur x with
        | error e => simp [accumTot, hg, hdv, ha] at hrun
        | ok w =>
          simp only [accumTot, hg, hdv, ha] at hrun
          exact ⟨w, (Except.ok.inj hrun).symm⟩

/-- One successful column step never removes a key from the snapshot. -/
theorem processColumn_ok_isSome (cfg : Config) (keys : List String) (cm : List (String × ℕ))
    (row : List Val) (fpga_key : String) (data d2 : Data) (colName k : String)
    (hrun : processColumn cfg keys cm row fpga_key data colName = .ok d2)
    (h : (aGet? data k).isSome = true) : (aGet? d2 k).isSome = true := by
  simp only [processColumn] at hrun
  by_cases hmem : (fpga_key ++ "-" ++ colName) ∈ keys
  · rw [if_pos hmem] at hrun
    cases hc : cell cm row colName with
    | error e => rw [hc] at hrun; simp at hrun
    | ok v =>
      simp only [hc] at hrun
      by_cases hn : cfg.fpga_count > 1
      · rw [if_pos hn] at hrun
        by_cases hp : strContains (fpga_key ++ "-" ++ colName) "percent" = true
        · rw [if_pos hp] at hrun
          rcases accumTot_ok_eq _ _ _ _ _ hrun with ⟨w, hw⟩
          rw [hw]
          exact aGet?_aSet_isSome _ _ _ _ (aGet?_aSet_isSome _ _ _ _ h)
        · rw [if_neg hp] at hrun
          rcases accumTot_ok_eq _ _ _ _ _ hrun with ⟨w, hw⟩
          rw [hw]
          exact aGet?_aSet_isSome _ _ _ _ (aGet?_aSet_isSome _ _ _ _ h)
      · rw [if_neg hn] at hrun
        rw [← Except.ok.inj hrun]
        exact aGet?_aSet_isSome _ _ _ _ h
  · rw [if_neg hmem] at hrun
    rw [← Except.ok.inj hrun]
    exact h

/-- A successful column loop never removes a key from the snapshot. -/
theorem processColumns_ok_isSome (cfg : Config) (keys : List String) (cm : List (String × ℕ))
    (row : List Val) (fpga_key : String) :
    ∀ (cols : List String) (data d2 : Data) (k : String),
      processColumns cfg keys cm row fpga_key cols data = .ok d2 →
      (aGet? data k).isSome = true → (aGet? d2 k).isSome = true
  | [], data, d2, k, hrun, h => by
    simp only [processColumns] at hrun
    rw [← Except.ok.inj hrun]
    exact h
  | colName :: rest, data, d2, k, hrun, h => by
    simp only [processColumns] at hrun
    cases hpc : processColumn cfg keys cm row fpga_key data colName with
    | error e => rw [hpc] at hrun; simp at hrun
    | ok d1 =>
      rw [hpc] at hrun
      exact processColumns_ok_isSome cfg keys cm row fpga_key rest d1 d2 k hrun
        (processColumn_ok_isSome cfg keys cm row fpga_key data d1 colName k hpc h)

/-- A successful row step never removes a key from the snapshot. -/
theorem processRow_ok_isSome (cfg : Config) (keys columns : List String)
    (cm : List (String × ℕ)) (row : List Val) (mst : MapperState) (data : Data)
    (r2 : MapperState × Data) (k : String)
    (hrun : processRow cfg keys columns cm row mst data = .ok r2)
    (h : (aGet? data k).isSome = true) : (aGet? r2.2 k).isSome = true := by
  simp only [processRow] at hrun
  cases hid : rowIdOf cm row with
  | error e => rw [hid] at hrun; simp at hrun
  | ok fid =>
    simp only [hid] at hrun
    cases hpc : processColumns cfg keys cm row (resolve mst fid).1 columns data with
    | error e => rw [hpc] at hrun; simp at hrun
    | ok d =>
      simp only [hpc] at hrun
      rw [← Except.ok.inj hrun]
      exact processColumns_ok_isSome cfg keys cm row (resolve mst fid).1 columns data d k hpc h

/-- A successful pass over all rows never removes a key from the
snapshot. -/
theorem processRows_ok_isSome (cfg : Config) (keys columns : List String)
    (cm : List (String × ℕ)) :
    ∀ (rows : List (List Val)) (mst : MapperState) (data : Data)
      (r2 : MapperState × Data) (k : String),
      processRows cfg keys columns cm rows mst data = .ok r2 →
      (aGet? data k).isSome = true → (aGet? r2.2 k).isSome = true
  | [], mst, data, r2, k, hrun, h => by
    simp only [processRows] at hrun
    rw [← Except.ok.inj hrun]
    exact h
  | row :: rest, mst, data, r2, k, hrun, h => by
    simp only [processRows] at hrun
    cases hpr : processRow cfg keys columns cm row mst data with
    | error e => rw [hpr] at hrun; simp at hrun
    | ok r1 =>
      rw [hpr] at hrun
      exact processRows_ok_isSome cfg keys columns cm rest r1.1 r1.2 r2 k hrun
        (processRow_ok_isSome cfg keys columns cm row mst data r1 k hpr h)

/-- Merging temperature and power readings never removes a key. -/
theorem set_fpga_os_status_isSome (cfg : Config) (temp power : List Val) (data : Data)
    (k : String) (h : (aGet? data k).isSome = true) :
    (aGet? (set_fpga_os_status cfg temp power data) k).isSome = true := by
  unfold set_fpga_os_status
  generalize List.range cfg.fpga_count = l
  induction l generalizing data with
  | nil => exact h
  | cons i l ih =>
    simp only [List.foldl_cons]
    exact ih _ (aGet?_aSet_isSome _ _ _ _ (aGet?_aSet_isSome _ _ _ _ h))

/-- Zero-seeding a list of keys makes every one of them readable. -/
theorem foldl_set_zero_isSome (k : String) :
    ∀ (ks : List String) (d : Data), (k ∈ ks ∨ (aGet? d k).isSome = true) →
      (aGet? (ks.foldl (fun d2 k2 => aSet d2 k2 (Val.num 0)) d) k).isSome = true
  | [], _, h => by
    rcases h with h | h
    · exact absurd h (List.not_mem_nil k)
    · exact h
  | k2 :: ks, d, h => by
    apply foldl_set_zero_isSome k ks (aSet d k2 (Val.num 0))
    rcases h with h | h
    · rcases List.mem_cons.mp h with h2 | h2
      · right
        subst h2
        rw [aGet?_aSet_self]
        rfl
      · left
        exact h2
    · right
      exact aGet?_aSet_isSome _ _ _ _ h

/-- Zero-seeding a list of keys maps every one of them to zero. -/
theorem foldl_set_zero_get (k : String) :
    ∀ (ks : List String) (d : Data),
      (k ∈ ks ∨ aGet? d k = some (Val.num 0)) →
      aGet? (ks.foldl (fun d2 k2 => aSet d2 k2 (Val.num 0)) d) k = some (Val.num 0)
  | [], _, h => by
    rcases h with h | h
    · exact absurd h (List.not_mem_nil k)
    · exact h
  | k2 :: ks, d, h => by
    apply foldl_set_zero_get k ks (aSet d k2 (Val.num 0))
    by_cases he : k2 = k
    · subst he
      right
      rw [aGet?_aSet_self]
    · rcases h with h | h
      · rcases List.mem_cons.mp h with h2 | h2
        · exact absurd h2.symm he
        · left
          exact h2
      · right
        rw [aGet?_aSet_ne k k2 _ he]
        exact h

/-- Every registered key is present in the default snapshot. -/
theorem defaultData_isSome (reg : Registry) (k : String) (hk : k ∈ reg.keys) :
    (aGet? (defaultData reg) k).isSome = true :=
  foldl_set_zero_isSome k reg.keys [] (Or.inl hk)

/-- Every registered key is zero in the default snapshot. -/
theorem defaultData_get (reg : Registry) (k : String) (hk : k ∈ reg.keys) :
    aGet? (defaultData reg) k = some (Val.num 0) :=
  foldl_set_zero_get k reg.keys [] (Or.inl hk)

/-- Connection acquisition does not touch the stored default snapshot. -/
theorem connect_default (s : ServiceState) : (connect s).2.default_data = s.default_data := by
  rcases hc : s.conn with _ | c <;> simp [connect, hc]

/-- C3: every series key registered at setup is present in every
snapshot a successful collection cycle returns, even when the query
contributed nothing for it this cycle. -/
theorem C3_snapshot_covers_keys (cfg : Config) (temp power : List Val)
    (query : Except String QueryResult) (s : ServiceState) (out : Data) (s2 : ServiceState)
    (k : String)
    (hd : s.default_data = defaultData (initRegistry cfg))
    (hk : k ∈ (initRegistry cfg).keys)
    (hrun : get_data cfg (initRegistry cfg).keys temp power query s = (.ok out, s2)) :
    (aGet? out k).isSome = true := by
  simp only [get_data] at hrun
  cases hb : get_data_body cfg (initRegistry cfg).keys temp power query ((connect s).2) with
  | error e =>
    rw [hb] at hrun
    exact absurd (congrArg Prod.fst hrun) (by simp)
  | ok r =>
    rw [hb] at hrun
    have hout : r.2 = out := Except.ok.inj (congrArg Prod.fst hrun)
    cases query with
    | error e => simp [get_data_body] at hb
    | ok q =>
      simp only [get_data_body] at hb
      have hbase : (aGet? ((connect s).2.default_data) k).isSome = true := by
        rw [connect_default, hd]
        exact defaultData_isSome _ k hk
      have hstart : (aGet? (if cfg.check_temp_power = true
          then set_fpga_os_status cfg temp power ((connect s).2.default_data)
          else ((connect s).2.default_data)) k).isSome = true := by
        by_cases hct : cfg.check_temp_power = true
        · rw [if_pos hct]
          exact set_fpga_os_status_isSome cfg temp power _ k hbase
        · rw [if_neg hct]
          exact hbase
      rw [← hout]
      exact processRows_ok_isSome cfg _ q.columns (colMap q.columns) q.rows _ _ r k hb hstart

/-- Witness for C3: a one-device cycle whose query returns no rows and
no columns still covers a registered key. -/
theorem C3_snapshot_covers_keys_witness :
    (aGet? (defaultData (initRegistry ⟨1, false, false⟩))
      "fpga-0-compression_job_count").isSome = true :=
  C3_snapshot_covers_keys ⟨1, false, false⟩ [] [] (.ok ⟨[], []⟩)
    ⟨some 0, 1, ⟨[], 0⟩, defaultData (initRegistry ⟨1, false, false⟩)⟩
    (defaultData (initRegistry ⟨1, false, false⟩))
    ⟨some 0, 1, ⟨[], 0⟩, defaultData (initRegistry ⟨1, false, false⟩)⟩
    "fpga-0-compression_job_count" rfl (by decide) rfl

/-- One collection cycle leaves the stored default snapshot unchanged. -/
theorem get_data_preserves_default (cfg : Config) (keys : List String) (temp power : List Val)
    (query : Except String QueryResult) (s : ServiceState) :
    ((get_data cfg keys temp power query s).2).default_data = s.default_data := by
  simp only [get_data]
  cases hb : get_data_body cfg keys temp power query ((connect s).2) with
  | ok r => exact connect_default s
  | error e => exact connect_default s

/-- Any number of collection cycles leaves the stored default snapshot
unchanged. -/
theorem runCycles_preserves_default (cfg : Config) (keys : List String)
    (inputs : List (List Val × List Val × Except String QueryResult)) :
    ∀ s : ServiceState, (runCycles cfg keys inputs s).default_data = s.default_data := by
  induction inputs with
  | nil => intro s; rfl
  | cons inp inputs ih =>
    intro s
    show (runCycles cfg keys inputs
      ((get_data cfg keys inp.1 inp.2.1 inp.2.2 s).2)).default_data = s.default_data
    rw [ih, get_data_preserves_default]

/-- C10: `get_data` operates on a copy of the stored default snapshot,
so after any number of collection cycles with any query results the
stored default is unchanged and every registered key still maps to
zero in it. -/
theorem C10_default_snapshot_immutable (cfg : Config) (keys : List String)
    (inputs : List (List Val × List Val × Except String QueryResult)) (s : ServiceState)
    (k : String)
    (hd : s.default_data = defaultData (initRegistry cfg))
    (hk : k ∈ (initRegistry cfg).keys) :
    (runCycles cfg keys inputs s).default_data = s.default_data ∧
    aGet? (runCycles cfg keys inputs s).default_data k = some (Val.num 0) := by
  refine ⟨runCycles_preserves_default cfg keys inputs s, ?_⟩
  rw [runCycles_preserves_default cfg keys inputs s, hd]
  exact defaultData_get _ k hk

/-- Witness for C10: one cycle that writes 7 into a registered key
leaves that key at zero in the stored default snapshot. -/
theorem C10_default_snapshot_immutable_witness :
    (runCycles ⟨1, false, false⟩ (initRegistry ⟨1, false, false⟩).keys
      [([], [], .ok ⟨["compression_job_count"], [[Val.num 7]]⟩)]
      ⟨some 0, 1, ⟨[], 0⟩, defaultData (initRegistry ⟨1, false, false⟩)⟩).default_data
      = defaultData (initRegistry ⟨1, false, false⟩) ∧
    aGet? (runCycles ⟨1, false, false⟩ (initRegistry ⟨1, false, false⟩).keys
      [([], [], .ok ⟨["compression_job_count"], [[Val.num 7]]⟩)]
      ⟨some 0, 1, ⟨[], 0⟩, defaultData (initRegistry ⟨1, false, false⟩)⟩).default_data
      "fpga-0-compression_job_count" = some (Val.num 0) :=
  C10_default_snapshot_immutable ⟨1, false, false⟩ (initRegistry ⟨1, false, false⟩).keys
    [([], [], .ok ⟨["compression_job_count"], [[Val.num 7]]⟩)]
    ⟨some 0, 1, ⟨[], 0⟩, defaultData (initRegistry ⟨1, false, false⟩)⟩
    "fpga-0-compression_job_count" rfl (by decide)

/-! Lemmas for the multi-device total aggregation. -/

/-- Appending on strings acts on the underlying character lists. -/
theorem string_data_append (a b : String) : (a ++ b).data = a.data ++ b.data := rfl

/-- A common prefix cancels in string equalities. -/
theorem string_append_left_cancel (s a b : String) (h : s ++ a = s ++ b) : a = b := by
  have h2 : s.data ++ a.data = s.data ++ b.data := by
    rw [← string_data_append, ← string_data_append, h]
  have h3 : a.data = b.data := List.append_cancel_left h2
  cases a
  cases b
  exact congrArg String.mk h3

/-- Connection acquisition does not touch the mapper state. -/
theorem connect_mapper (s : ServiceState) : (connect s).2.mapper = s.mapper := by
  rcases hc : s.conn with _ | c <;> simp [connect, hc]

/-- Merging temperature and power readings leaves unrelated keys
unchanged. -/
theorem set_fpga_os_status_get_ne (cfg : Config) (temp power : List Val) (data : Data)
    (k : String)
    (hne : ∀ i < cfg.fpga_count,
      ("fpga-" ++ Nat.repr i ++ "-temperature") ≠ k ∧ ("fpga-" ++ Nat.repr i ++ "-power") ≠ k) :
    aGet? (set_fpga_os_status cfg temp power data) k = aGet? data k := by
  unfold set_fpga_os_status
  have hgen : ∀ (l : List ℕ) (d : Data),
      (∀ i ∈ l, ("fpga-" ++ Nat.repr i ++ "-temperature") ≠ k ∧
        ("fpga-" ++ Nat.repr i ++ "-power") ≠ k) →
      aGet? (l.foldl (fun d2 idx =>
        aSet (aSet d2 ("fpga-" ++ Nat.repr idx ++ "-temperature") (temp.getD idx (.num 0)))
          ("fpga-" ++ Nat.repr idx ++ "-power") (power.getD idx (.num 0))) d) k = aGet? d k := by
    intro l
    induction l with
    | nil => intro d _; rfl
    | cons i l ih =>
      intro d hl
      have hi := hl i (List.mem_cons_self _ _)
      rw [List.foldl_cons, ih _ (fun j hj => hl j (List.mem_cons_of_mem _ hj)),
        aGet?_aSet_ne _ _ _ hi.2, aGet?_aSet_ne _ _ _ hi.1]
  exact hgen (List.range cfg.fpga_count) data
    (fun i hi => hne i (List.mem_range.mp hi))

/-- The column loop distributes over an append of column lists. -/
theorem processColumns_append (cfg : Config) (keys : List String) (cm : List (String × ℕ))
    (row : List Val) (dev : String) :
    ∀ (cols1 cols2 : List String) (data : Data),
      processColumns cfg keys cm row dev (cols1 ++ cols2) data =
        match processColumns cfg keys cm row dev cols1 data with
        | .ok d => processColumns cfg keys cm row dev cols2 d
        | .error e => .error e
  | [], cols2, data => rfl
  | colName :: rest, cols2, data => by
    show (match processColumn cfg keys cm row dev data colName with
      | .ok d => processColumns cfg keys cm row dev (rest ++ cols2) d
      | .error e => .error e) = _
    cases hpc : processColumn cfg keys cm row dev data colName with
    | error e => simp [processColumns, hpc]
    | ok d1 =>
      simp only [processColumns, hpc]
      exact processColumns_append cfg keys cm row dev rest cols2 d1

/-- A column step for a column other than `c` leaves the total key of
`c` unchanged. -/
theorem processColumn_preserves_other (cfg : Config) (keys : List String)
    (cm : List (String × ℕ)) (row : List Val) (dev c col : String) (data d2 : Data)
    (hcol : col ≠ c)
    (hne : dev ++ "-" ++ col ≠ "fpga-total-" ++ c)
    (hrun : processColumn cfg keys cm row dev data col = .ok d2) :
    aGet? d2 ("fpga-total-" ++ c) = aGet? data ("fpga-total-" ++ c) := by
  simp only [processColumn] at hrun
  by_cases hmem : (dev ++ "-" ++ col) ∈ keys
  · rw [if_pos hmem] at hrun
    cases hc2 : cell cm row col with
    | error e => rw [hc2] at hrun; simp at hrun
    | ok v =>
      simp only [hc2] at hrun
      have htotne : ("fpga-total-" ++ col) ≠ ("fpga-total-" ++ c) := by
        intro h
        exact hcol (string_append_left_cancel _ _ _ h)
      by_cases hn : cfg.fpga_count > 1
      · rw [if_pos hn] at hrun
        by_cases hp : strContains (dev ++ "-" ++ col) "percent" = true
        · rw [if_pos hp] at hrun
          rcases accumTot_ok_eq _ _ _ _ _ hrun with ⟨w, hw⟩
          rw [hw, aGet?_aSet_ne _ _ _ htotne, aGet?_aSet_ne _ _ _ hne]
        · rw [if_neg hp] at hrun
          rcases accumTot_ok_eq _ _ _ _ _ hrun with ⟨w, hw⟩
          rw [hw, aGet?_aSet_ne _ _ _ htotne, aGet?_aSet_ne _ _ _ hne]
      · rw [if_neg hn] at hrun
        rw [← Except.ok.inj hrun, aGet?_aSet_ne _ _ _ hne]
  · rw [if_neg hmem] at hrun
    rw [← Except.ok.inj hrun]

/-- A column segment avoiding `c` leaves the total key of `c`
unchanged. -/
theorem processColumns_preserves_other (cfg : Config) (keys : List String)
    (cm : List (String × ℕ)) (row : List Val) (dev c : String) :
    ∀ (cols : List String) (data d2 : Data),
      c ∉ cols →
      (∀ col ∈ cols, dev ++ "-" ++ col ≠ "fpga-total-" ++ c) →
      processColumns cfg keys cm row dev cols data = .ok d2 →
      aGet? d2 ("fpga-total-" ++ c) = aGet? data ("fpga-total-" ++ c)
  | [], data, d2, _, _, hrun => by
    rw [← Except.ok.inj hrun]
  | colName :: rest, data, d2, hc, hne, hrun => by
    simp only [processColumns] at hrun
    cases hpc : processColumn cfg keys cm row dev data colName with
    | error e => rw [hpc] at hrun; simp at hrun
    | ok d1 =>
      rw [hpc] at hrun
      have h1 := processColumn_preserves_other cfg keys cm row dev c colName data d1
        (fun he => hc (he ▸ List.mem_cons_self _ _))
        (hne colName (List.mem_cons_self _ _)) hpc
      have h2 := processColumns_preserves_other cfg keys cm row dev c rest d1 d2
        (fun hm => hc (List.mem_cons_of_mem _ hm))
        (fun col hm => hne col (List.mem_cons_of_mem _ hm)) hrun
      rw [h2, h1]

/-- The column step for `c` itself adds the cell value to the total key. -/
theorem processColumn_c_step (cfg : Config) (keys : List String) (cm : List (String × ℕ))
    (row : List Val) (dev c : String) (data d2 : Data) (x q : ℚ)
    (hn : cfg.fpga_count > 1)
    (hmem : (dev ++ "-" ++ c) ∈ keys)
    (hcell : cell cm row c = .ok (Val.num q))
    (hperc : strContains (dev ++ "-" ++ c) "percent" = false)
    (hdevne : dev ++ "-" ++ c ≠ "fpga-total-" ++ c)
    (hcur : aGet? data ("fpga-total-" ++ c) = some (Val.num x))
    (hrun : processColumn cfg keys cm row dev data c = .ok d2) :
    aGet? d2 ("fpga-total-" ++ c) = some (Val.num (x + q)) := by
  simp only [processColumn] at hrun
  rw [if_pos hmem] at hrun
  simp only [hcell] at hrun
  rw [if_pos hn, if_neg (by rw [hperc]; exact Bool.false_ne_true)] at hrun
  have hcur2 : aGet? (aSet data (dev ++ "-" ++ c) (Val.num q)) ("fpga-total-" ++ c)
      = some (Val.num x) := by
    rw [aGet?_aSet_ne _ _ _ hdevne]
    exact hcur
  simp only [accumTot, hcur2, vAdd] at hrun
  rw [← Except.ok.inj hrun, aGet?_aSet_self]

/-- Processing one row whose device is already mapped adds its cell
value for `c` to the total key and leaves the mapper unchanged. -/
theorem processRow_tot_step (cfg : Config) (keys columns : List String)
    (cm : List (String × ℕ)) (row : List Val) (mst : MapperState) (data : Data)
    (r2 : MapperState × Data) (c dev : String) (idv : Val) (q x : ℚ)
    (hnodup : columns.Nodup) (hcmem : c ∈ columns)
    (hn : cfg.fpga_count > 1)
    (hid : rowIdOf cm row = .ok idv)
    (hres : aGet? mst.fpga_mapping idv = some dev)
    (hkey : dev ++ "-" ++ c ∈ keys)
    (hcell : cell cm row c = .ok (Val.num q))
    (hperc : strContains (dev ++ "-" ++ c) "percent" = false)
    (hne : ∀ col ∈ columns, dev ++ "-" ++ col ≠ "fpga-total-" ++ c)
    (hcur : aGet? data ("fpga-total-" ++ c) = some (Val.num x))
    (hrun : processRow cfg keys columns cm row mst data = .ok r2) :
    r2.1 = mst ∧ aGet? r2.2 ("fpga-total-" ++ c) = some (Val.num (x + q)) := by
  have hres2 : resolve mst idv = (dev, mst) := by
    simp [resolve, hres]
  simp only [processRow, hid, hres2] at hrun
  rcases List.append_of_mem hcmem with ⟨pre, post, hsplit⟩
  subst hsplit
  have hnd := List.nodup_append.mp hnodup
  have hcpre : c ∉ pre := fun hm => (hnd.2.2 hm (List.mem_cons_self _ _)).elim
  have hcpost : c ∉ post := (List.nodup_cons.mp hnd.2.1).1
  cases hpc : processColumns cfg keys cm row dev (pre ++ c :: post) data with
  | error e => rw [hpc] at hrun; simp at hrun
  | ok dfin =>
    simp only [hpc] at hrun
    rw [← Except.ok.inj hrun]
    refine ⟨rfl, ?_⟩
    rw [processColumns_append cfg keys cm row dev pre (c :: post) data] at hpc
    cases hp1 : processColumns cfg keys cm row dev pre data with
    | error e => rw [hp1] at hpc; simp at hpc
    | ok d1 =>
      rw [hp1] at hpc
      have hd1 : aGet? d1 ("fpga-total-" ++ c) = some (Val.num x) := by
        rw [processColumns_preserves_other cfg keys cm row dev c pre data d1 hcpre
          (fun col hm => hne col (List.mem_append_left _ hm)) hp1]
        exact hcur
      simp only [processColumns] at hpc
      cases hp2 : processColumn cfg keys cm row dev d1 c with
      | error e => rw [hp2] at hpc; simp at hpc
      | ok d3 =>
        rw [hp2] at hpc
        have hd3 : aGet? d3 ("fpga-total-" ++ c) = some (Val.num (x + q)) :=
          processColumn_c_step cfg keys cm row dev c d1 d3 x q hn hkey hcell hperc
            (hne c (List.mem_append_right _ (List.mem_cons_self _ _))) hd1 hp2
        rw [processColumns_preserves_other cfg keys cm row dev c post d3 dfin hcpost
          (fun col hm => hne col (List.mem_append_right _ (List.mem_cons_of_mem _ hm))) hpc]
        exact hd3

/-- Over all rows of a cycle whose devices are pre-mapped, the total
key of `c` accumulates the sum of the reported values. -/
theorem processRows_total_sum (cfg : Config) (keys columns : List String)
    (cm : List (String × ℕ)) (c : String)
    (hnodup : columns.Nodup) (hcmem : c ∈ columns) (hn : cfg.fpga_count > 1) :
    ∀ (rows : List (List Val)) (qs : List ℚ) (devs : List String)
      (mst : MapperState) (data : Data) (r2 : MapperState × Data) (x : ℚ),
      rows.length = qs.length → rows.length = devs.length →
      (∀ p ∈ rows.zip (qs.zip devs),
        (∃ idv, rowIdOf cm p.1 = .ok idv ∧ aGet? mst.fpga_mapping idv = some p.2.2) ∧
        cell cm p.1 c = .ok (Val.num p.2.1) ∧
        (p.2.2 ++ "-" ++ c) ∈ keys ∧
        strContains (p.2.2 ++ "-" ++ c) "percent" = false ∧
        (∀ col ∈ columns, p.2.2 ++ "-" ++ col ≠ "fpga-total-" ++ c)) →
      aGet? data ("fpga-total-" ++ c) = some (Val.num x) →
      processRows cfg keys columns cm rows mst data = .ok r2 →
      r2.1 = mst ∧ aGet? r2.2 ("fpga-total-" ++ c) = some (Val.num (x + qs.sum))
  | [], qs, devs, mst, data, r2, x, hl1, _, _, hcur, hrun => by
    have hqs : qs = [] := List.eq_nil_of_length_eq_zero hl1.symm
    subst hqs
    simp only [processRows] at hrun
    rw [← Except.ok.inj hrun]
    refine ⟨rfl, ?_⟩
    simpa using hcur
  | row :: rest, qs, devs, mst, data, r2, x, hl1, hl2, hp, hcur, hrun => by
    cases qs with
    | nil => exact absurd hl1 (by simp)
    | cons q qs2 =>
      cases devs with
      | nil => exact absurd hl2 (by simp)
      | cons dev devs2 =>
        have hhead := hp (row, q, dev) (List.mem_cons_self _ _)
        rcases hhead with ⟨⟨idv, hid, hres⟩, hcell, hkey, hperc, hne⟩
        simp only [processRows] at hrun
        cases hpr : processRow cfg keys columns cm row mst data with
        | error e => rw [hpr] at hrun; simp at hrun
        | ok r1 =>
          simp only [hpr] at hrun
          rcases processRow_tot_step cfg keys columns cm row mst data r1 c dev idv q x
            hnodup hcmem hn hid hres hkey hcell hperc hne hcur hpr with ⟨hmst, hlook⟩
          rw [hmst] at hrun
          have := processRows_total_sum cfg keys columns cm c hnodup hcmem hn
            rest qs2 devs2 mst r1.2 r2 (x + q)
            (by simpa using hl1) (by simpa using hl2)
            (fun p hm => hp p (List.mem_cons_of_mem _ hm)) hlook hrun
          refine ⟨this.1, ?_⟩
          rw [this.2, List.sum_cons]
          ring_nf

/-- C1 counterexample: at the claim's own literal percent input — two
devices with pu/ddr stats enabled reporting
`avg_memory_write_transactions_percent` 80 and 60 — the cycle does not
return a snapshot with `fpga-total-avg_memory_write_transactions_percent`
equal to 70: `fpga-total` registers only the `bytes`, `jobs` and `max`
kinds, so the accumulation reads a missing key and the cycle raises
`KeyError`. -/
theorem C1_counterexample :
    (get_data ⟨2, false, true⟩ (initRegistry ⟨2, false, true⟩).keys [] []
      (.ok ⟨["fpga_id", "avg_memory_write_transactions_percent"],
            [[.num 0, .num 80], [.num 1, .num 60]]⟩)
      ⟨some 0, 1, ⟨[], 0⟩, defaultData (initRegistry ⟨2, false, true⟩)⟩).1
      = .error "KeyError" := rfl

/-- C1 amended: with more than one device, for a column `c` of the
stats query drawn from the total-eligible metric kinds (`bytes`, `jobs`,
`max` — none of whose column names contains `percent`), a successful
cycle's snapshot holds at `fpga-total-c` the sum of the values the rows
report in column `c`, one row per reporting device, each device already
mapped to its local name; e.g. `compression_job_count` 100 and 50 give
150.  The percent/mean branch never applies to a total-registered
column; a registered per-device percent column instead makes the cycle
raise (see the counterexample). -/
theorem C1_amended_total_sum (cfg : Config) (keys : List String) (temp power : List Val)
    (columns : List String) (rows : List (List Val)) (c : String)
    (qs : List ℚ) (devs : List String) (s : ServiceState) (out : Data) (s2 : ServiceState)
    (hn : 1 < cfg.fpga_count)
    (hcelig : c ∈ totalEligibleCols)
    (hnodup : columns.Nodup) (hcmem : c ∈ columns)
    (hlen1 : rows.length = qs.length) (hlen2 : rows.length = devs.length)
    (hdevnodup : devs.Nodup)
    (hrowhyp : ∀ p ∈ rows.zip (qs.zip devs),
      (∃ idv, rowIdOf (colMap columns) p.1 = .ok idv ∧
        aGet? s.mapper.fpga_mapping idv = some p.2.2) ∧
      cell (colMap columns) p.1 c = .ok (Val.num p.2.1) ∧
      (p.2.2 ++ "-" ++ c) ∈ keys ∧
      strContains (p.2.2 ++ "-" ++ c) "percent" = false ∧
      (∀ col ∈ columns, p.2.2 ++ "-" ++ col ≠ "fpga-total-" ++ c))
    (hdef : aGet? s.default_data ("fpga-total-" ++ c) = some (Val.num 0))
    (htp : ∀ i < cfg.fpga_count,
      ("fpga-" ++ Nat.repr i ++ "-temperature") ≠ "fpga-total-" ++ c ∧
      ("fpga-" ++ Nat.repr i ++ "-power") ≠ "fpga-total-" ++ c)
    (hrun : get_data cfg keys temp power (.ok ⟨columns, rows⟩) s = (.ok out, s2)) :
    aGet? out ("fpga-total-" ++ c) = some (Val.num qs.sum) := by
  simp only [get_data] at hrun
  cases hb : get_data_body cfg keys temp power (.ok ⟨columns, rows⟩) ((connect s).2) with
  | error e =>
    rw [hb] at hrun
    exact absurd (congrArg Prod.fst hrun) (by simp)
  | ok r =>
    rw [hb] at hrun
    have hout : r.2 = out := Except.ok.inj (congrArg Prod.fst hrun)
    simp only [get_data_body] at hb
    have hstart : aGet? (if cfg.check_temp_power = true
        then set_fpga_os_status cfg temp power ((connect s).2.default_data)
        else ((connect s).2.default_data)) ("fpga-total-" ++ c) = some (Val.num 0) := by
      have hbase : aGet? ((connect s).2.default_data) ("fpga-total-" ++ c)
          = some (Val.num 0) := by
        rw [connect_default]
        exact hdef
      by_cases hct : cfg.check_temp_power = true
      · rw [if_pos hct, set_fpga_os_status_get_ne cfg temp power _ _ htp]
        exact hbase
      · rw [if_neg hct]
        exact hbase
    have hsum := processRows_total_sum cfg keys columns (colMap columns) c hnodup hcmem hn
      rows qs devs ((connect s).2.mapper) _ r 0 hlen1 hlen2
      (by rw [connect_mapper]; exact hrowhyp) hstart hb
    rw [← hout, hsum.2, zero_add]

/-- Witness for the amended C1 at the spec's literal example: two
devices reporting `compression_job_count` 100 and 50 give
`fpga-total-compression_job_count` 150. -/
theorem C1_amended_total_sum_witness :
    aGet? [("fpga-total-compression_job_count", Val.num 150),
           ("fpga-0-compression_job_count", Val.num 100),
           ("fpga-1-compression_job_count", Val.num 50)]
      "fpga-total-compression_job_count" = some (Val.num 150) := by
  have h := C1_amended_total_sum ⟨2, false, false⟩
    ["fpga-0-compression_job_count", "fpga-1-compression_job_count"] [] []
    ["fpga_id", "compression_job_count"]
    [[.num 0, .num 100], [.num 1, .num 50]]
    "compression_job_count" [100, 50] ["fpga-0", "fpga-1"]
    ⟨some 0, 1, ⟨[(.num 0, "fpga-0"), (.num 1, "fpga-1")], 2⟩,
      [("fpga-total-compression_job_count", .num 0)]⟩
    [("fpga-total-compression_job_count", Val.num (0 + 100 + 50)),
     ("fpga-0-compression_job_count", Val.num 100),
     ("fpga-1-compression_job_count", Val.num 50)]
    ⟨some 0, 1, ⟨[(.num 0, "fpga-0"), (.num 1, "fpga-1")], 2⟩,
      [("fpga-total-compression_job_count", .num 0)]⟩
    (by decide) (by decide) (by decide) (by decide) (by decide) (by decide) (by decide)
    (by
      intro p hp
      simp only [List.zip, List.zipWith, List.mem_cons, List.not_mem_nil, or_false,
        List.mem_singleton] at hp
      rcases hp with hp | hp <;> subst hp
      · exact ⟨⟨.num 0, rfl, rfl⟩, rfl, by decide, by decide, by decide⟩
      · exact ⟨⟨.num 1, rfl, rfl⟩, rfl, by decide, by decide, by decide⟩)
    rfl
    (by
      intro i hi
      interval_cases i <;> exact (by decide))
    rfl
  have h150 : (0 : ℚ) + 100 + 50 = 150 := by norm_num
  have hs : ([100, 50] : List ℚ).sum = 150 := by
    norm_num [List.sum_cons, List.sum_nil]
  rw [h150, hs] at h
  exact h

end FpgaChart
